import Mathlib

/-!
# motplayer: the `VideoProcessor` worker

A shallow embedding of `src/VideoProcessor.cpp` / `src/VideoProcessor.h`:

* images (`cv::Mat`) are a row count, a column count and the row-major list of
  their elements;
* C++ `int` values are `Int`, and every operation that can leave the 32-bit
  range wraps explicitly (`wrapInt32`), `size_t` is `Nat` modulo `2^64`;
* `double` values are the rationals they denote, and every arithmetic
  operation rounds its exact result to the nearest binary64 value, ties to
  even (`roundDouble`);
* the slots are functions from the object's fields to the new fields and the
  list of signals emitted;
* the worker's `run()` is a function of the decoded stream and of a schedule
  that says which slot calls of the caller's thread become visible at each
  point where the loop looks at the shared fields.
-/

set_option autoImplicit false

namespace MotPlayer

/-! ## Machine integers -/

/-- Largest value of a C++ `int`. -/
def INT_MAX : Int := 2147483647

/-- Smallest value of a C++ `int`. -/
def INT_MIN : Int := -2147483648

/-- Result of 32-bit two's complement `int` arithmetic whose exact value is `x`. -/
def wrapInt32 (x : Int) : Int := (x + 2147483648) % 4294967296 - 2147483648

/-- Conversion `static_cast<size_t>(x)` of an `int` on a 64-bit target. -/
def toSizeT (x : Int) : Nat := (x % 18446744073709551616).toNat

/-! ## Images -/

/-- A `cv::Mat` as far as the worker looks at it: its size and its elements in
row-major order. -/
structure Mat (α : Type) where
  rows : Nat
  cols : Nat
  data : List α
deriving DecidableEq, Repr

/-- The default-constructed `cv::Mat()`: no rows, no columns, no buffer. -/
def Mat.blank {α : Type} : Mat α := ⟨0, 0, []⟩

/-- Transcribes `cv::Mat::empty()`: no buffer or no element. -/
def Mat.empty {α : Type} (m : Mat α) : Bool := m.data.isEmpty || m.rows * m.cols == 0

/-- The buffer of a `cv::Mat` holds `rows * cols` elements. -/
def Mat.WellFormed {α : Type} (m : Mat α) : Prop := m.data.length = m.rows * m.cols

/-- Two images have the same size. -/
def Mat.SameSize {α β : Type} (a : Mat α) (b : Mat β) : Prop :=
  a.rows = b.rows ∧ a.cols = b.cols

instance {α β : Type} (a : Mat α) (b : Mat β) : Decidable (a.SameSize b) := by
  unfold Mat.SameSize; infer_instance

instance {α : Type} (m : Mat α) : Decidable m.WellFormed := by
  unfold Mat.WellFormed; infer_instance

/-- One pixel of a decoded frame (8-bit blue, green, red). -/
structure Bgr where
  b : Fin 256
  g : Fin 256
  r : Fin 256
deriving DecidableEq, Repr

/-- A decoded colour frame. -/
abbrev Frame := Mat Bgr

/-- A single-channel 8-bit image. -/
abbrev Gray := Mat (Fin 256)

/-- Transcribes `cv::cvtColor(src, dst, cv::COLOR_BGR2GRAY)`: every pixel is mapped
to its 8-bit luminance, the size is kept. The pixel map `luma` belongs to
OpenCV and is a parameter. -/
def cvtColor (luma : Bgr → Fin 256) (src : Frame) : Gray :=
  ⟨src.rows, src.cols, src.data.map luma⟩

/-- Absolute difference of two 8-bit values, as `cv::absdiff` computes it. -/
def absdiff8 (a b : Fin 256) : Fin 256 :=
  if b ≤ a then a - b else b - a

/-- Transcribes `cv::absdiff(src1, src2, dst)`: elementwise absolute difference; OpenCV
raises an exception when the operands differ in size (`none`). -/
def absdiff (src1 src2 : Gray) : Option Gray :=
  if src1.rows = src2.rows ∧ src1.cols = src2.cols then
    some ⟨src1.rows, src1.cols, List.zipWith absdiff8 src1.data src2.data⟩
  else
    none

/-- Transcribes `cv::threshold(src, dst, thresh, 255, cv::THRESH_BINARY)` on an 8-bit
image: `dst = src > thresh ? 255 : 0`. -/
def threshold (src : Gray) (thresh : Int) : Gray :=
  ⟨src.rows, src.cols, src.data.map (fun v => if thresh < (v.val : Int) then 255 else 0)⟩

/-- Lines 183-186 of `run()`: both frames to grey, absolute difference, binarise
at the motion threshold. `none` is the exception of `cv::absdiff`. -/
def motionMask (luma : Bgr → Fin 256) (frameN frameNminusDelta : Frame)
    (motionThreshold : Int) : Option Gray :=
  let grayN := cvtColor luma frameN
  let grayNminusDelta := cvtColor luma frameNminusDelta
  match absdiff grayN grayNminusDelta with
  | none => none
  | some diff => some (threshold diff motionThreshold)

/-- The reference definition of the detector, from the specification's words:
a mask of the inputs' size whose pixel is 255 where the absolute difference of
the two luminance values is strictly greater than the threshold, 0 elsewhere. -/
def detectSpec (luma : Bgr → Fin 256) (frameA frameB : Frame) (t : Int) : Gray :=
  ⟨frameA.rows, frameA.cols,
    List.zipWith
      (fun p q => if t < |((luma p).val : Int) - ((luma q).val : Int)| then (255 : Fin 256) else 0)
      frameA.data frameB.data⟩

/-! ## Frame history -/

/-- Lines 173-175 of `run()`: `while (size > cap && !empty) pop_front()`. -/
def trim {α : Type} (cap : Nat) : List α → List α
  | [] => []
  | x :: xs => if cap < (x :: xs).length then trim cap xs else x :: xs

/-- The bound `static_cast<size_t>(currentDelta + 1)` of lines 173 and 178. -/
def capacity (currentDelta : Int) : Nat := toSizeT (wrapInt32 (currentDelta + 1))

/-- Lines 171-175 of `run()`: `push_back` followed by the eviction loop. -/
def pushTrim {α : Type} (currentDelta : Int) (buf : List α) (frame : α) : List α :=
  trim (capacity currentDelta) (buf ++ [frame])

/-! ## Doubles -/

/-- Nearest integer, ties to the even one. -/
def roundHalfEven (y : ℚ) : Int :=
  if y - ⌊y⌋ < 1 / 2 then ⌊y⌋
  else if 1 / 2 < y - ⌊y⌋ then ⌊y⌋ + 1
  else if ⌊y⌋ % 2 = 0 then ⌊y⌋ else ⌊y⌋ + 1

/-- Spacing of the binary64 values around `x`: 53 significant bits, and the
fixed spacing `2^-1074` below the smallest normal number. -/
def ulp (x : ℚ) : ℚ := (2 : ℚ) ^ (max (Int.log 2 |x|) (-1022) - 52)

/-- IEEE-754 binary64 rounding, to nearest and ties to even, of an exact result.
Results beyond the largest finite double stay finite here instead of becoming
infinite; the only consumer, `castInt`, treats both alike. -/
def roundDouble (x : ℚ) : ℚ := roundHalfEven (x / ulp x) * ulp x

/-- The `double` quotient `a / b`. -/
def ddiv (a b : ℚ) : ℚ := roundDouble (a / b)

/-- The `double` product `a * b`. -/
def dmul (a b : ℚ) : ℚ := roundDouble (a * b)

/-- Conversion `static_cast<int>(x)` of a `double`: truncation toward zero; a value that
does not fit (undefined in C++) gives `INT_MIN`, as the x86-64 conversion
instruction does. -/
def castInt (x : ℚ) : Int :=
  let t : Int := if 0 ≤ x then ⌊x⌋ else ⌈x⌉
  if INT_MIN ≤ t ∧ t ≤ INT_MAX then t else INT_MIN

/-- Line 141 of `run()`: `if (m_fps <= 0) m_fps = 30.0;`. -/
def defaultFps (fps : ℚ) : ℚ := if fps ≤ 0 then 30 else fps

/-- Lines 146-147 and 168-169 of `run()`:
`delayMs = static_cast<int>((1000.0 / m_fps) * currentDelta);`
`if (delayMs <= 0) delayMs = 33 * currentDelta;`. -/
def delayMs (fps : ℚ) (currentDelta : Int) : Int :=
  let d := castInt (dmul (ddiv 1000 fps) currentDelta)
  if d ≤ 0 then wrapInt32 (33 * currentDelta) else d

/-- The pacing rule in the specification's words: `round(1000 / fps) * delta`, the
quotient taken exactly and rounded to the nearest whole millisecond. -/
def targetIntervalSpec (fps : ℚ) (delta : Int) : Int := round (1000 / fps) * delta

/-! ## The object and its signals -/

/-- The signals of `VideoProcessor`. -/
inductive Signal where
  | newFramesReady (original : Frame) (mask : Gray)
  | processingFinished
  | errorOccurred (message : String)
  | videoInfoReady (fps : ℚ) (width height : Int)
deriving DecidableEq

/-- What `cv::VideoCapture` gives for one file: the three properties the code
reads, and the frames `read` returns in order (after the last one `read`
fails). -/
structure VideoCapture where
  fps : ℚ
  frameWidth : ℚ
  frameHeight : ℚ
  frames : List Frame

/-- The data members of `VideoProcessor`; `threadRunning` is `m_thread->isRunning()`. -/
structure VideoProcessor where
  filePath : String
  stopRequested : Bool
  pauseRequested : Bool
  frameDelta : Int
  motionThreshold : Int
  fps : ℚ
  videoWidth : Int
  videoHeight : Int
  frameBuffer : List Frame
  threadRunning : Bool
deriving DecidableEq

/-- The fields with `m_frameBuffer` replaced. -/
def VideoProcessor.withBuffer (vp : VideoProcessor) (buf : List Frame) : VideoProcessor :=
  { vp with frameBuffer := buf }

/-- The constructor's member initialisers. -/
def VideoProcessor.init : VideoProcessor :=
  { filePath := "", stopRequested := false, pauseRequested := false, frameDelta := 3,
    motionThreshold := 30, fps := 0, videoWidth := 0, videoHeight := 0, frameBuffer := [],
    threadRunning := false }

/-! ## Slots (caller's thread)

Each slot returns the new fields and the signals it emits itself; log lines
(`qInfo`, `qWarning`) are not signals and are left out. Where a slot waits for
the worker thread to end (lines 34-42 and 94-101), the worker sees the stop flag,
leaves its loop and clears the history (line 199) before the slot goes on, so
the history is empty afterwards; the signals the worker emits while it winds
down belong to `run`. -/

/-- Transcribes `VideoProcessor::loadVideo`; `fs` says what `cv::VideoCapture::open` finds
at a path (`none`: cannot be opened). When the worker thread runs, it is stopped
first: `m_stopRequested` is set, the thread ends within the wait, having cleared
the history, and `m_stopRequested` is reset. -/
def loadVideo (fs : String → Option VideoCapture) (filePath : String) (vp : VideoProcessor) :
    VideoProcessor × List Signal :=
  let vp := if vp.threadRunning then
      { vp with stopRequested := false, threadRunning := false, frameBuffer := [] }
    else vp
  let vp := { vp with filePath := filePath }
  match fs vp.filePath with
  | none =>
    ({ vp with filePath := "" },
      [Signal.errorOccurred ("Failed to open video file: " ++ vp.filePath)])
  | some cap =>
    let vp := { vp with
      fps := cap.fps, videoWidth := castInt cap.frameWidth,
      videoHeight := castInt cap.frameHeight }
    (vp, [Signal.videoInfoReady vp.fps vp.videoWidth vp.videoHeight])

/-- Transcribes `VideoProcessor::pause`. -/
def pause (vp : VideoProcessor) : VideoProcessor × List Signal :=
  ({ vp with pauseRequested := true }, [])

/-- Transcribes `VideoProcessor::resume`. -/
def resume (vp : VideoProcessor) : VideoProcessor × List Signal :=
  ({ vp with pauseRequested := false }, [])

/-- Transcribes `VideoProcessor::startProcessing`. -/
def startProcessing (vp : VideoProcessor) : VideoProcessor × List Signal :=
  if vp.filePath.isEmpty then (vp, [Signal.errorOccurred "No video file loaded."])
  else if vp.threadRunning then resume vp
  else ({ vp with stopRequested := false, pauseRequested := false, threadRunning := true }, [])

/-- Transcribes `VideoProcessor::stop`. -/
def stop (vp : VideoProcessor) : VideoProcessor × List Signal :=
  let vp := { vp with stopRequested := true }
  let vp := if vp.threadRunning then { vp with threadRunning := false } else vp
  ({ vp with frameBuffer := [] }, [])

/-- Transcribes `VideoProcessor::setFrameDelta`. -/
def setFrameDelta (delta : Int) (vp : VideoProcessor) : VideoProcessor × List Signal :=
  if 0 < delta then ({ vp with frameDelta := delta }, []) else (vp, [])

/-- Transcribes `VideoProcessor::setMotionThreshold`. -/
def setMotionThreshold (threshold : Int) (vp : VideoProcessor) : VideoProcessor × List Signal :=
  if 0 ≤ threshold ∧ threshold ≤ 255 then ({ vp with motionThreshold := threshold }, [])
  else (vp, [])

/-- A call of one of the two configuration slots. -/
inductive Setter where
  | frameDelta (delta : Int)
  | motionThreshold (threshold : Int)
deriving DecidableEq

/-- Runs one configuration call. -/
def Setter.call : Setter → VideoProcessor → VideoProcessor × List Signal
  | Setter.frameDelta n, vp => setFrameDelta n vp
  | Setter.motionThreshold t, vp => setMotionThreshold t vp

/-- Runs configuration calls one after the other, collecting the signals. -/
def callSetters : List Setter → VideoProcessor → VideoProcessor × List Signal
  | [], vp => (vp, [])
  | s :: rest, vp =>
    let r := s.call vp
    let r2 := callSetters rest r.1
    (r2.1, r.2 ++ r2.2)

/-! ## The worker loop -/

/-- A store of the caller's thread into one of the fields the worker reads:
the two configuration slots, `pause()`, `resume()`, and the assignment
`m_stopRequested = true` with which `stop()` and `loadVideo()` begin. -/
inductive Command where
  | setFrameDelta (delta : Int)
  | setMotionThreshold (threshold : Int)
  | pause
  | resume
  | requestStop
deriving DecidableEq

/-- The fields after one store of the caller's thread. -/
def Command.apply : Command → VideoProcessor → VideoProcessor
  | Command.setFrameDelta n, vp => (MotPlayer.setFrameDelta n vp).1
  | Command.setMotionThreshold t, vp => (MotPlayer.setMotionThreshold t vp).1
  | Command.pause, vp => (MotPlayer.pause vp).1
  | Command.resume, vp => (MotPlayer.resume vp).1
  | Command.requestStop, vp => { vp with stopRequested := true }

/-- The fields after a list of stores, in order. -/
def applyCommands (cmds : List Command) (vp : VideoProcessor) : VideoProcessor :=
  cmds.foldl (fun v c => c.apply v) vp

/-- What the surroundings contribute to one pass of the loop: the stores that
became visible since the loop last looked at the shared fields (`cmds`), those
that land while the frame is being processed and are seen by the test of
line 193 (`late`), and the reading of `frameTimer.elapsed()` as an `int`. -/
structure Tick where
  cmds : List Command
  late : List Command
  elapsed : Int
deriving DecidableEq

/-- What the worker does that can be seen from outside: a signal, or a sleep. -/
inductive Effect where
  | emit (signal : Signal)
  | msleep (ms : Int)
deriving DecidableEq

/-- How an execution of the loop ended: it left the `while` (`broke`), OpenCV raised
an exception (`threw`), or the schedule ended while the worker was still in the
loop (`running`). -/
inductive Exit where
  | broke
  | threw
  | running
deriving DecidableEq

/-- The fields, the effects so far and the way the loop ended. -/
structure RunResult where
  vp : VideoProcessor
  effects : List Effect
  exit : Exit
deriving DecidableEq

/-- Puts effects in front of those of a result. -/
def RunResult.after (es : List Effect) (r : RunResult) : RunResult :=
  { r with effects := es ++ r.effects }

/-- Lines 177-187 of `run()`: the mask of one pass, given the history after the
push. `none` is an exception of OpenCV (or `front()`/`back()` of an empty
deque). -/
def maskToSend (luma : Bgr → Fin 256) (currentDelta : Int) (motionThreshold : Int)
    (frameBuffer : List Frame) : Option Gray :=
  if capacity currentDelta ≤ frameBuffer.length then
    match frameBuffer.getLast?, frameBuffer.head? with
    | some frameN, some frameNminusDelta =>
      motionMask luma frameN frameNminusDelta motionThreshold
    | _, _ => none
  else some Mat.blank

/-- Lines 191-195 of `run()`: the residual sleep of one pass. -/
def residualSleep (delay elapsed : Int) (stopRequested : Bool) : List Effect :=
  let waitTime := wrapInt32 (delay - elapsed)
  if 0 < waitTime ∧ stopRequested = false then [Effect.msleep waitTime] else []

/-- Lines 153-196 of `run()`: the `while` loop. Each element of the schedule is one
look at the shared fields: it is used up by one 50 ms poll of the pause loop,
or by one pass that reads a frame. `frames` is what the capture still has to
deliver. -/
def workerLoop (luma : Bgr → Fin 256) : List Tick → VideoProcessor → List Frame → RunResult
  | [], vp, _ => ⟨vp, [], Exit.running⟩
  | tk :: ticks, vp0, frames =>
    let vp := applyCommands tk.cmds vp0
    if vp.stopRequested then ⟨vp, [], Exit.broke⟩
    else if vp.pauseRequested then
      (workerLoop luma ticks vp frames).after [Effect.msleep 50]
    else
      match frames with
      | [] => ⟨vp, [], Exit.broke⟩
      | currentFrame :: rest =>
        if currentFrame.empty then ⟨vp, [], Exit.broke⟩
        else
          let currentDelta := vp.frameDelta
          let delay := delayMs vp.fps currentDelta
          let vp1 := vp.withBuffer (pushTrim currentDelta vp.frameBuffer currentFrame)
          match maskToSend luma currentDelta vp1.motionThreshold vp1.frameBuffer with
          | none => ⟨vp1, [], Exit.threw⟩
          | some motionMaskToSend =>
            let vp2 := applyCommands tk.late vp1
            (workerLoop luma ticks vp2 rest).after
              (Effect.emit (Signal.newFramesReady currentFrame motionMaskToSend)
                :: residualSleep delay tk.elapsed vp2.stopRequested)

/-- Lines 138-143 of `run()`: the stream's properties are stored, a frame rate that
is not positive is replaced by 30, the history is cleared. -/
def VideoProcessor.opened (vp : VideoProcessor) (cap : VideoCapture) : VideoProcessor :=
  { vp with
    fps := defaultFps cap.fps
    videoWidth := castInt cap.frameWidth
    videoHeight := castInt cap.frameHeight
    frameBuffer := [] }

/-- Transcribes `VideoProcessor::run`, the slot the worker thread executes. -/
def run (luma : Bgr → Fin 256) (fs : String → Option VideoCapture) (ticks : List Tick)
    (vp : VideoProcessor) : RunResult :=
  match fs vp.filePath with
  | none =>
    ⟨vp, [Effect.emit (Signal.errorOccurred
      ("Failed to open video file in worker thread: " ++ vp.filePath))], Exit.broke⟩
  | some cap =>
    let r := workerLoop luma ticks (vp.opened cap) cap.frames
    match r.exit with
    | Exit.broke =>
      ⟨{ r.vp with frameBuffer := [] }, r.effects ++ [Effect.emit Signal.processingFinished],
        Exit.broke⟩
    | _ => r

/-- The frame pairs of the `newFramesReady` signals among the effects, in order. -/
def emitted : List Effect → List (Frame × Gray)
  | [] => []
  | Effect.emit (Signal.newFramesReady original mask) :: es => (original, mask) :: emitted es
  | _ :: es => emitted es

/-- The history after a sequence of passes, each one pushing a frame under the
frame delta current at that pass (lines 167 and 171-175 of `run()`). -/
def historyAfter {α : Type} (passes : List (α × Int)) : List α :=
  passes.foldl (fun buf p => pushTrim p.2 buf p.1) []

/-! ## Predicates and sample inputs used by the theorems -/

/-- A configuration call (one of the two setters) whose argument is a C++ `int`. -/
def Command.IsConfigCall : Command → Prop
  | Command.setFrameDelta n => INT_MIN ≤ n ∧ n ≤ INT_MAX
  | Command.setMotionThreshold t => INT_MIN ≤ t ∧ t ≤ INT_MAX
  | _ => False

/-- The worker is neither stopped nor paused, the frame delta is a positive
`int`, and every frame of the history has `r` rows and `c` columns. -/
structure Steady (r c : Nat) (vp : VideoProcessor) : Prop where
  stop : vp.stopRequested = false
  pause : vp.pauseRequested = false
  delta_pos : 1 ≤ vp.frameDelta
  delta_max : vp.frameDelta ≤ INT_MAX
  sized : ∀ f ∈ vp.frameBuffer, f.rows = r ∧ f.cols = c

/-- A frame of one pixel, all three channels at `v`. -/
def pixelFrame (v : Fin 256) : Frame := ⟨1, 1, [⟨v, v, v⟩]⟩

/-- A sample stream: ten one-pixel frames. -/
def sampleCapture : VideoCapture :=
  { fps := 10, frameWidth := 1, frameHeight := 1,
    frames := [pixelFrame 0, pixelFrame 10, pixelFrame 20, pixelFrame 30, pixelFrame 40,
      pixelFrame 50, pixelFrame 60, pixelFrame 70, pixelFrame 80, pixelFrame 90] }

/-- A file system that holds the sample stream at every path. -/
def sampleFs : String → Option VideoCapture := fun _ => some sampleCapture

/-- The object after `loadVideo` of the sample and `setFrameDelta(2)`. -/
def sampleProcessor : VideoProcessor :=
  { VideoProcessor.init with filePath := "sample.avi", frameDelta := 2 }

/-- A sample luminance map: the green channel. -/
def sampleLuma : Bgr → Fin 256 := fun p => p.g

/-- A schedule of eleven looks at the shared fields with no store in between. -/
def quietTicks : List Tick := List.replicate 11 ⟨[], [], 0⟩

/-- A schedule of eleven looks at the shared fields, with configuration calls
before the second, during the third and before the fifth pass. -/
def busyTicks : List Tick :=
  [⟨[], [], 0⟩, ⟨[Command.setFrameDelta 1], [], 5⟩,
    ⟨[], [Command.setMotionThreshold 200, Command.setFrameDelta 0], 0⟩, ⟨[], [], 0⟩,
    ⟨[Command.setFrameDelta 4, Command.setMotionThreshold (-1)], [], 500⟩, ⟨[], [], 0⟩,
    ⟨[], [], 0⟩, ⟨[], [], 0⟩, ⟨[], [], 0⟩, ⟨[], [], 0⟩, ⟨[], [], 0⟩]

theorem trim_eq_drop {α : Type} (cap : Nat) (l : List α) :
    trim cap l = l.drop (l.length - cap) := by
  induction l with
  | nil => simp [trim]
  | cons x xs ih =>
    unfold trim
    split_ifs with h
    · rw [ih]
      simp only [List.length_cons] at h ⊢
      have : xs.length + 1 - cap = (xs.length - cap) + 1 := by omega
      rw [this, List.drop_succ_cons]
    · simp only [List.length_cons] at h ⊢
      have : xs.length + 1 - cap = 0 := by omega
      rw [this, List.drop_zero]

theorem capacity_of_nat (d : Nat) (h : (d : Int) < INT_MAX) : capacity (d : Int) = d + 1 := by
  unfold capacity toSizeT wrapInt32
  unfold INT_MAX at h
  omega

theorem capacity_pos (d : Int) (h1 : 1 ≤ d) (h2 : d ≤ INT_MAX) : 1 ≤ capacity d := by
  unfold capacity toSizeT wrapInt32
  unfold INT_MAX at h2
  omega

theorem drop_congr {α : Type} (l : List α) {m n : Nat} (h : m = n) : l.drop m = l.drop n := by
  rw [h]

theorem pushTrim_suffix {α : Type} (d : Int) (pre buf : List α) (f : α) (j : Nat)
    (hj : j ≤ pre.length) (hbuf : buf = pre.drop j) :
    pushTrim d buf f = (pre ++ [f]).drop (j + (buf.length + 1 - capacity d)) := by
  unfold pushTrim
  rw [trim_eq_drop, hbuf, ← List.drop_append_of_le_length hj, List.drop_drop]
  simp
  congr 1
  omega

theorem historyAfter_snoc {α : Type} (passes : List (α × Int)) (f : α) (d : Int) :
    historyAfter (passes ++ [(f, d)]) = pushTrim d (historyAfter passes) f := by
  simp [historyAfter, List.foldl_append]

theorem historyAfter_suffix {α : Type} (passes : List (α × Int)) :
    ∃ j, j ≤ passes.length ∧ historyAfter passes = (passes.map Prod.fst).drop j := by
  induction passes using List.reverseRecOn with
  | nil => exact ⟨0, by simp, by simp [historyAfter]⟩
  | append_singleton ps p ih =>
    obtain ⟨j, hj, hbuf⟩ := ih
    obtain ⟨f, d⟩ := p
    refine ⟨j + ((historyAfter ps).length + 1 - capacity d), ?_, ?_⟩
    · have : (historyAfter ps).length = ps.length - j := by rw [hbuf]; simp
      simp only [List.length_append, List.length_singleton]
      omega
    · rw [historyAfter_snoc, pushTrim_suffix d (ps.map Prod.fst) _ f j (by simpa using hj) hbuf]
      simp

theorem head?_drop_eq {α : Type} (l : List α) (j : Nat) : (l.drop j).head? = l[j]? := by
  rw [List.head?_drop]

theorem getLast?_drop_eq {α : Type} (l : List α) (j : Nat) (h : j < l.length) :
    (l.drop j).getLast? = l.getLast? := by
  rw [List.getLast?_drop]
  simp [Nat.not_le.mpr h]

/-- Claim C3: with a fixed frame delta `d` (capacity `c = d + 1`), after pushing the
`k` frames `fs` the history has length `min k c`, its newest element is the last
frame pushed, its oldest element is the frame at 0-based position
`k - min k c` (the `(k - min k c + 1)`-th pushed), and its contents are the
`min k c` most recent pushes in insertion order. The bound `d < INT_MAX` keeps
`currentDelta + 1` inside the range of `int`. -/
theorem history_fixed_capacity {α : Type} (d : Nat) (fs : List α)
    (hmax : (d : Int) < INT_MAX) :
    capacity (d : Int) = d + 1 ∧
    (historyAfter (fs.map fun f => (f, (d : Int)))).length = min fs.length (d + 1) ∧
    (historyAfter (fs.map fun f => (f, (d : Int)))).getLast? = fs.getLast? ∧
    (historyAfter (fs.map fun f => (f, (d : Int)))).head? = fs[fs.length - min fs.length (d + 1)]? ∧
    historyAfter (fs.map fun f => (f, (d : Int))) = fs.drop (fs.length - min fs.length (d + 1)) := by
  have hcap := capacity_of_nat d hmax
  have key : historyAfter (fs.map fun f => (f, (d : Int)))
      = fs.drop (fs.length - min fs.length (d + 1)) := by
    induction fs using List.reverseRecOn with
    | nil => simp [historyAfter]
    | append_singleton l a ih =>
      rw [List.map_append, List.map_singleton, historyAfter_snoc,
        pushTrim_suffix (d : Int) l _ a (l.length - min l.length (d + 1)) (by omega) ih, hcap]
      apply drop_congr
      have hl : (historyAfter (l.map fun f => (f, (d : Int)))).length
          = l.length - (l.length - min l.length (d + 1)) := by rw [ih]; simp
      simp only [List.length_append, List.length_singleton]
      omega
  refine ⟨hcap, ?_, ?_, ?_, key⟩
  · rw [key, List.length_drop]; omega
  · rw [key]
    rcases Nat.eq_zero_or_pos fs.length with h0 | hpos
    · have : fs = [] := List.length_eq_zero.mp h0
      subst this; simp
    · exact getLast?_drop_eq fs _ (by omega)
  · rw [key, head?_drop_eq]

/-- Witness for C3: five pushes under frame delta 2 leave the three most recent
frames, oldest first. -/
theorem history_fixed_capacity_witness :
    capacity 2 = 3 ∧
    (historyAfter ([10, 11, 12, 13, 14].map fun f => (f, (2 : Int)))).length = 3 ∧
    (historyAfter ([10, 11, 12, 13, 14].map fun f => (f, (2 : Int)))).getLast? = some 14 ∧
    (historyAfter ([10, 11, 12, 13, 14].map fun f => (f, (2 : Int)))).head? = some 12 ∧
    historyAfter ([10, 11, 12, 13, 14].map fun f => (f, (2 : Int))) = [12, 13, 14] := by
  simpa using history_fixed_capacity 2 [10, 11, 12, 13, 14] (by decide)


/-- Claim C4: whatever the frame deltas of the earlier passes were, after the
push-and-trim step of a pass whose current delta is `d` the history holds at
most `d + 1` frames, its length is `min (previous length + 1) (d + 1)` (so every
excess frame left by a larger earlier delta is evicted in this very step), it
is the block of the most recent captures, and whenever the mask is computed
(`capacity d ≤ length`) its front is the capture `d` places before its back,
the current frame. -/
theorem history_tracks_current_delta {α : Type} (passes : List (α × Int)) (f : α) (d : Nat)
    (hmax : (d : Int) < INT_MAX) :
    (historyAfter (passes ++ [(f, (d : Int))])).length ≤ d + 1 ∧
    (historyAfter (passes ++ [(f, (d : Int))])).length
      = min ((historyAfter passes).length + 1) (d + 1) ∧
    historyAfter (passes ++ [(f, (d : Int))])
      = (passes.map Prod.fst ++ [f]).drop
          (passes.length + 1 - (historyAfter (passes ++ [(f, (d : Int))])).length) ∧
    (capacity (d : Int) ≤ (historyAfter (passes ++ [(f, (d : Int))])).length →
      d ≤ passes.length ∧
      (historyAfter (passes ++ [(f, (d : Int))])).head?
        = (passes.map Prod.fst ++ [f])[passes.length - d]? ∧
      (historyAfter (passes ++ [(f, (d : Int))])).getLast?
        = (passes.map Prod.fst ++ [f])[passes.length]?) := by
  have hcap := capacity_of_nat d hmax
  obtain ⟨j, hj, hprev⟩ := historyAfter_suffix passes
  have hplen : (historyAfter passes).length = passes.length - j := by rw [hprev]; simp
  have hbuf : historyAfter (passes ++ [(f, (d : Int))])
      = (passes.map Prod.fst ++ [f]).drop (j + ((historyAfter passes).length + 1 - (d + 1))) := by
    rw [historyAfter_snoc,
      pushTrim_suffix (d : Int) (passes.map Prod.fst) _ f j (by simpa using hj) hprev, hcap]
  have hlen : (historyAfter (passes ++ [(f, (d : Int))])).length
      = min ((historyAfter passes).length + 1) (d + 1) := by
    rw [hbuf]
    simp only [List.length_drop, List.length_append, List.length_map, List.length_singleton]
    omega
  refine ⟨by omega, hlen, ?_, ?_⟩
  · rw [hlen]
    conv_lhs => rw [hbuf]
    apply drop_congr
    omega
  · intro hfull
    rw [hcap] at hfull
    have hoff : j + ((historyAfter passes).length + 1 - (d + 1)) = passes.length - d := by omega
    refine ⟨by omega, ?_, ?_⟩
    · rw [hbuf, head?_drop_eq, hoff]
    · rw [hbuf, getLast?_drop_eq _ _ (by simp; omega)]
      simp

/-- Witness for C4: four frames kept under delta 5, then delta 1: the next push
leaves two frames, the previous capture and the current one. -/
theorem history_tracks_current_delta_witness :
    (historyAfter ([(10, 5), (11, 5), (12, 5), (13, 5)] ++ [(14, ((1 : Nat) : Int))])).length ≤ 1 + 1 ∧
    (historyAfter ([(10, 5), (11, 5), (12, 5), (13, 5)] ++ [(14, ((1 : Nat) : Int))])).head? = some 13 ∧
    (historyAfter ([(10, 5), (11, 5), (12, 5), (13, 5)] ++ [(14, ((1 : Nat) : Int))])).getLast? = some 14 := by
  have h := history_tracks_current_delta [(10, 5), (11, 5), (12, 5), (13, 5)] 14 1
    (by decide)
  have hfull := h.2.2.2 (by rw [capacity_of_nat 1 (by decide), h.2.1]; simp [historyAfter, pushTrim, trim, capacity, toSizeT, wrapInt32])
  refine ⟨h.1, ?_, ?_⟩
  · simpa using hfull.2.1
  · simpa using hfull.2.2

/-! ## Lemmas on the worker loop -/

theorem emitted_append (es fs : List Effect) : emitted (es ++ fs) = emitted es ++ emitted fs := by
  induction es with
  | nil => rfl
  | cons e es ih =>
    cases e with
    | emit s => cases s <;> simp [emitted, ih]
    | msleep ms => simp [emitted, ih]

theorem emitted_residualSleep (delay elapsed : Int) (b : Bool) :
    emitted (residualSleep delay elapsed b) = [] := by
  unfold residualSleep
  dsimp only
  split_ifs <;> rfl

theorem emitted_after (es : List Effect) (r : RunResult) :
    emitted (r.after es).effects = emitted es ++ emitted r.effects := by
  unfold RunResult.after
  exact emitted_append es r.effects

theorem emitted_pass (f : Frame) (m : Gray) (delay elapsed : Int) (b : Bool) (r : RunResult) :
    emitted (r.after (Effect.emit (Signal.newFramesReady f m)
      :: residualSleep delay elapsed b)).effects = (f, m) :: emitted r.effects := by
  rw [emitted_after]
  simp only [emitted, emitted_residualSleep, List.cons_append, List.nil_append]

theorem exit_after (es : List Effect) (r : RunResult) : (r.after es).exit = r.exit := rfl

theorem apply_config (r c : Nat) (cmd : Command) (vp : VideoProcessor)
    (hc : cmd.IsConfigCall) (hs : Steady r c vp) :
    Steady r c (cmd.apply vp) ∧ (cmd.apply vp).frameBuffer = vp.frameBuffer
      ∧ (cmd.apply vp).fps = vp.fps := by
  cases cmd with
  | setFrameDelta n =>
    simp only [Command.apply, setFrameDelta]
    split_ifs with h
    · exact ⟨⟨hs.stop, hs.pause, by simpa using h, hc.2, hs.sized⟩, rfl, rfl⟩
    · exact ⟨hs, rfl, rfl⟩
  | setMotionThreshold t =>
    simp only [Command.apply, setMotionThreshold]
    split_ifs with h
    · exact ⟨⟨hs.stop, hs.pause, hs.delta_pos, hs.delta_max, hs.sized⟩, rfl, rfl⟩
    · exact ⟨hs, rfl, rfl⟩
  | pause => exact absurd hc (by simp [Command.IsConfigCall])
  | resume => exact absurd hc (by simp [Command.IsConfigCall])
  | requestStop => exact absurd hc (by simp [Command.IsConfigCall])

theorem applyCommands_config (r c : Nat) (cmds : List Command) (vp : VideoProcessor)
    (hc : ∀ cmd ∈ cmds, cmd.IsConfigCall) (hs : Steady r c vp) :
    Steady r c (applyCommands cmds vp) ∧ (applyCommands cmds vp).frameBuffer = vp.frameBuffer
      ∧ (applyCommands cmds vp).fps = vp.fps := by
  induction cmds generalizing vp with
  | nil => exact ⟨hs, rfl, rfl⟩
  | cons cmd rest ih =>
    have h1 := apply_config r c cmd vp (hc cmd (by simp)) hs
    have h2 := ih (cmd.apply vp) (fun x hx => hc x (by simp [hx])) h1.1
    simp only [applyCommands, List.foldl_cons] at h2 ⊢
    exact ⟨h2.1, h2.2.1.trans h1.2.1, h2.2.2.trans h1.2.2⟩

theorem motionMask_sameSize (luma : Bgr → Fin 256) (a b : Frame) (t : Int)
    (hr : a.rows = b.rows) (hc : a.cols = b.cols) :
    motionMask luma a b t
      = some (threshold ⟨a.rows, a.cols,
          List.zipWith absdiff8 (a.data.map luma) (b.data.map luma)⟩ t) := by
  simp [motionMask, absdiff, cvtColor, hr, hc]

theorem pushTrim_length {α : Type} (d : Int) (buf : List α) (f : α) :
    (pushTrim d buf f).length = min (buf.length + 1) (capacity d) := by
  unfold pushTrim
  rw [trim_eq_drop]
  simp only [List.length_drop, List.length_append, List.length_singleton]
  omega

theorem mem_pushTrim {α : Type} (d : Int) (buf : List α) (f g : α)
    (h : g ∈ pushTrim d buf f) : g ∈ buf ∨ g = f := by
  unfold pushTrim at h
  rw [trim_eq_drop] at h
  have := List.mem_of_mem_drop h
  simpa using this

theorem maskToSend_isSome (luma : Bgr → Fin 256) (r c : Nat) (d t : Int) (buf : List Frame)
    (hcap : 1 ≤ capacity d) (hsized : ∀ f ∈ buf, f.rows = r ∧ f.cols = c) :
    ∃ m, maskToSend luma d t buf = some m := by
  unfold maskToSend
  split_ifs with hfull
  · cases buf with
    | nil => simp at hfull; omega
    | cons x xs =>
      have hl : (x :: xs).getLast? = some ((x :: xs).getLast (by simp)) :=
        List.getLast?_eq_getLast _ _
      have hm := hsized _ (List.getLast_mem (l := x :: xs) (by simp))
      have hx := hsized x (by simp)
      rw [hl]
      simp only [List.head?_cons]
      exact ⟨_, motionMask_sameSize luma _ _ t (hm.1.trans hx.1.symm) (hm.2.trans hx.2.symm)⟩
  · exact ⟨_, rfl⟩

theorem workerLoop_pass (luma : Bgr → Fin 256) (tk : Tick) (ticks : List Tick)
    (vp : VideoProcessor) (f : Frame) (rest : List Frame) (m : Gray)
    (hstop : (applyCommands tk.cmds vp).stopRequested = false)
    (hpause : (applyCommands tk.cmds vp).pauseRequested = false)
    (hf : f.empty = false)
    (hm : maskToSend luma (applyCommands tk.cmds vp).frameDelta
      (applyCommands tk.cmds vp).motionThreshold
      (pushTrim (applyCommands tk.cmds vp).frameDelta (applyCommands tk.cmds vp).frameBuffer f)
        = some m) :
    workerLoop luma (tk :: ticks) vp (f :: rest)
      = (workerLoop luma ticks
          (applyCommands tk.late ((applyCommands tk.cmds vp).withBuffer
            (pushTrim (applyCommands tk.cmds vp).frameDelta
              (applyCommands tk.cmds vp).frameBuffer f))) rest).after
          (Effect.emit (Signal.newFramesReady f m)
            :: residualSleep (delayMs (applyCommands tk.cmds vp).fps
                (applyCommands tk.cmds vp).frameDelta) tk.elapsed
              (applyCommands tk.late ((applyCommands tk.cmds vp).withBuffer
            (pushTrim (applyCommands tk.cmds vp).frameDelta
              (applyCommands tk.cmds vp).frameBuffer f))).stopRequested) := by
  rw [workerLoop]
  simp only [hstop, hpause, hf, Bool.false_eq_true, if_false]
  have hm2 : maskToSend luma (applyCommands tk.cmds vp).frameDelta
      ((applyCommands tk.cmds vp).withBuffer
        (pushTrim (applyCommands tk.cmds vp).frameDelta
          (applyCommands tk.cmds vp).frameBuffer f)).motionThreshold
      ((applyCommands tk.cmds vp).withBuffer
        (pushTrim (applyCommands tk.cmds vp).frameDelta
          (applyCommands tk.cmds vp).frameBuffer f)).frameBuffer = some m := hm
  rw [hm2]

theorem workerLoop_end (luma : Bgr → Fin 256) (tk : Tick) (ticks : List Tick)
    (vp : VideoProcessor)
    (hstop : (applyCommands tk.cmds vp).stopRequested = false)
    (hpause : (applyCommands tk.cmds vp).pauseRequested = false) :
    workerLoop luma (tk :: ticks) vp [] = ⟨applyCommands tk.cmds vp, [], Exit.broke⟩ := by
  rw [workerLoop]
  simp only [hstop, hpause, Bool.false_eq_true, if_false]

theorem workerLoop_config (luma : Bgr → Fin 256) (r c : Nat) :
    ∀ (frames : List Frame) (ticks : List Tick) (vp : VideoProcessor),
      Steady r c vp →
      (∀ f ∈ frames, f.empty = false ∧ f.rows = r ∧ f.cols = c) →
      (∀ tk ∈ ticks, ∀ cmd ∈ tk.cmds ++ tk.late, cmd.IsConfigCall) →
      frames.length < ticks.length →
      (workerLoop luma ticks vp frames).exit = Exit.broke ∧
      (emitted (workerLoop luma ticks vp frames).effects).map Prod.fst = frames := by
  intro frames
  induction frames with
  | nil =>
    intro ticks vp hs _ hcmds hlen
    cases ticks with
    | nil => simp at hlen
    | cons tk ticks =>
      have h1 := applyCommands_config r c tk.cmds vp
        (fun x hx => hcmds tk (by simp) x (by simp [hx])) hs
      rw [workerLoop_end luma tk ticks vp h1.1.stop h1.1.pause]
      exact ⟨rfl, rfl⟩
  | cons f rest ih =>
    intro ticks vp hs hframes hcmds hlen
    cases ticks with
    | nil => simp at hlen
    | cons tk ticks =>
      have h1 := applyCommands_config r c tk.cmds vp
        (fun x hx => hcmds tk (by simp) x (by simp [hx])) hs
      have hf := hframes f (by simp)
      have hsized : ∀ g ∈ pushTrim (applyCommands tk.cmds vp).frameDelta
          (applyCommands tk.cmds vp).frameBuffer f, g.rows = r ∧ g.cols = c := by
        intro g hg
        rcases mem_pushTrim _ _ _ _ hg with hg | hg
        · exact h1.1.sized g hg
        · rw [hg]; exact hf.2
      obtain ⟨m, hm⟩ := maskToSend_isSome luma r c (applyCommands tk.cmds vp).frameDelta
        (applyCommands tk.cmds vp).motionThreshold _
        (capacity_pos _ h1.1.delta_pos h1.1.delta_max) hsized
      have hs1 : Steady r c ((applyCommands tk.cmds vp).withBuffer
            (pushTrim (applyCommands tk.cmds vp).frameDelta
              (applyCommands tk.cmds vp).frameBuffer f)) :=
        ⟨h1.1.stop, h1.1.pause, h1.1.delta_pos, h1.1.delta_max, hsized⟩
      have h2 := applyCommands_config r c tk.late _
        (fun x hx => hcmds tk (by simp) x (by simp [hx])) hs1
      have hrec := ih ticks _ h2.1 (fun g hg => hframes g (by simp [hg]))
        (fun tk2 htk => hcmds tk2 (by simp [htk])) (by simpa using hlen)
      rw [workerLoop_pass luma tk ticks vp f rest m h1.1.stop h1.1.pause hf.1 hm]
      rw [exit_after, emitted_pass, List.map_cons, hrec.2]
      exact ⟨hrec.1, rfl⟩

theorem applyCommands_nil (vp : VideoProcessor) : applyCommands [] vp = vp := rfl

theorem maskToSend_full (luma : Bgr → Fin 256) (d t : Int) (buf : List Frame) (a b : Frame)
    (hfull : capacity d ≤ buf.length) (ha : buf.getLast? = some a) (hb : buf.head? = some b) :
    maskToSend luma d t buf = motionMask luma a b t := by
  unfold maskToSend
  rw [if_pos hfull, ha, hb]

theorem maskToSend_short (luma : Bgr → Fin 256) (d t : Int) (buf : List Frame)
    (hshort : buf.length < capacity d) : maskToSend luma d t buf = some Mat.blank := by
  unfold maskToSend
  rw [if_neg (by omega)]

theorem workerLoop_quiet (luma : Bgr → Fin 256) (r c d : Nat) (t : Int)
    (hmax : (d : Int) < INT_MAX) :
    ∀ (frames pre : List Frame) (ticks : List Tick) (vp : VideoProcessor),
      vp.stopRequested = false → vp.pauseRequested = false →
      vp.frameDelta = (d : Int) → vp.motionThreshold = t →
      vp.frameBuffer = pre.drop (pre.length - (d + 1)) →
      (∀ f ∈ pre ++ frames, f.rows = r ∧ f.cols = c) →
      (∀ f ∈ frames, f.empty = false) →
      (∀ tk ∈ ticks, tk.cmds = [] ∧ tk.late = []) →
      frames.length < ticks.length →
      (workerLoop luma ticks vp frames).exit = Exit.broke ∧
      (emitted (workerLoop luma ticks vp frames).effects).length = frames.length ∧
      ∀ (j : Nat) (fj : Frame), frames[j]? = some fj →
        ∃ mask, (emitted (workerLoop luma ticks vp frames).effects)[j]? = some (fj, mask) ∧
          (pre.length + j < d → mask = Mat.blank) ∧
          (d ≤ pre.length + j → ∃ fo, (pre ++ frames)[pre.length + j - d]? = some fo ∧
            motionMask luma fj fo t = some mask) := by
  have hcap := capacity_of_nat d hmax
  intro frames
  induction frames with
  | nil =>
    intro pre ticks vp hstop hpause _ _ _ _ _ hq hlen
    cases ticks with
    | nil => simp at hlen
    | cons tk ticks =>
      have hc : applyCommands tk.cmds vp = vp := by rw [(hq tk (by simp)).1]; rfl
      rw [workerLoop_end luma tk ticks vp (by rw [hc]; exact hstop) (by rw [hc]; exact hpause)]
      refine ⟨rfl, rfl, ?_⟩
      intro j fj hj
      simp at hj
  | cons f rest ih =>
    intro pre ticks vp hstop hpause hdelta hthr hbuf hsized hne hq hlen
    cases ticks with
    | nil => simp at hlen
    | cons tk ticks =>
      have hc : applyCommands tk.cmds vp = vp := by rw [(hq tk (by simp)).1]; rfl
      have hbuflen : vp.frameBuffer.length = pre.length - (pre.length - (d + 1)) := by
        rw [hbuf]; simp
      have hnew : pushTrim (d : Int) vp.frameBuffer f
          = (pre ++ [f]).drop ((pre ++ [f]).length - (d + 1)) := by
        rw [pushTrim_suffix (d : Int) pre _ f (pre.length - (d + 1)) (by omega) hbuf, hcap]
        apply drop_congr
        simp only [List.length_append, List.length_singleton]
        omega
      have hnewlen : (pushTrim (d : Int) vp.frameBuffer f).length = min (pre.length + 1) (d + 1) := by
        rw [pushTrim_length, hcap, hbuflen]; omega
      have hmask : ∃ m, maskToSend luma (d : Int) t (pushTrim (d : Int) vp.frameBuffer f) = some m ∧
          (pre.length < d → m = Mat.blank) ∧
          (d ≤ pre.length → ∃ fo, (pre ++ f :: rest)[pre.length - d]? = some fo ∧
            motionMask luma f fo t = some m) := by
        rcases Nat.lt_or_ge pre.length d with hlt | hge
        · refine ⟨Mat.blank, maskToSend_short luma _ t _ (by rw [hcap, hnewlen]; omega),
            fun _ => rfl, fun h => absurd h (by omega)⟩
        · have hidx : pre.length - d < (pre ++ [f]).length := by
            simp only [List.length_append, List.length_singleton]; omega
          have hhead : (pushTrim (d : Int) vp.frameBuffer f).head?
              = some ((pre ++ [f])[pre.length - d]) := by
            rw [hnew, head?_drop_eq]
            have : (pre ++ [f]).length - (d + 1) = pre.length - d := by
              simp only [List.length_append, List.length_singleton]; omega
            rw [this, List.getElem?_eq_getElem hidx]
          have hlast : (pushTrim (d : Int) vp.frameBuffer f).getLast? = some f := by
            rw [hnew, getLast?_drop_eq _ _
              (by simp only [List.length_append, List.length_singleton]; omega)]
            simp
          have hfo : (pre ++ f :: rest)[pre.length - d]? = some ((pre ++ [f])[pre.length - d]) := by
            have : pre ++ f :: rest = (pre ++ [f]) ++ rest := by simp
            rw [this, List.getElem?_append_left hidx, List.getElem?_eq_getElem hidx]
          have hmem : (pre ++ [f])[pre.length - d] ∈ pre ++ f :: rest :=
            List.getElem?_mem hfo
          have hs1 := hsized f (by simp)
          have hs2 := hsized _ hmem
          rw [maskToSend_full luma _ t _ f _ (by rw [hcap, hnewlen]; omega) hlast hhead]
          refine ⟨_, motionMask_sameSize luma f _ t (hs1.1.trans hs2.1.symm)
            (hs1.2.trans hs2.2.symm), fun h => absurd h (by omega), fun _ => ⟨_, hfo, ?_⟩⟩
          exact motionMask_sameSize luma f _ t (hs1.1.trans hs2.1.symm) (hs1.2.trans hs2.2.symm)
      obtain ⟨m, hm, hm1, hm2⟩ := hmask
      have hpass := workerLoop_pass luma tk ticks vp f rest m (by rw [hc]; exact hstop)
        (by rw [hc]; exact hpause) (hne f (by simp)) (by rw [hc, hdelta, hthr]; exact hm)
      rw [hc, (hq tk (by simp)).2, applyCommands_nil, hdelta] at hpass
      have hrec := ih (pre ++ [f]) ticks (vp.withBuffer (pushTrim (d : Int) vp.frameBuffer f))
        hstop hpause hdelta hthr hnew
        (fun g hg => hsized g (by simpa using hg))
        (fun g hg => hne g (by simp [hg]))
        (fun tk2 h2 => hq tk2 (by simp [h2])) (by simpa using hlen)
      rw [hpass, exit_after, emitted_pass]
      refine ⟨hrec.1, by simp [hrec.2.1], ?_⟩
      intro j fj hj
      cases j with
      | zero =>
        have : fj = f := by simpa using hj.symm
        subst this
        exact ⟨m, by simp, by simpa using hm1, by simpa using hm2⟩
      | succ j =>
        obtain ⟨mask, h1, h2, h3⟩ := hrec.2.2 j fj (by simpa using hj)
        refine ⟨mask, by simpa using h1, ?_, ?_⟩
        · intro h; exact h2 (by simp; omega)
        · intro h
          obtain ⟨fo, hfo, hmo⟩ := h3 (by simp; omega)
          refine ⟨fo, ?_, hmo⟩
          have e1 : (pre ++ [f]) ++ rest = pre ++ f :: rest := by simp
          have e2 : (pre ++ [f]).length + j - d = pre.length + (j + 1) - d := by simp; omega
          rw [← e1, ← e2]; exact hfo

theorem run_of_broke (luma : Bgr → Fin 256) (fs : String → Option VideoCapture)
    (ticks : List Tick) (vp : VideoProcessor) (cap : VideoCapture)
    (hopen : fs vp.filePath = some cap)
    (hexit : (workerLoop luma ticks (vp.opened cap) cap.frames).exit = Exit.broke) :
    (run luma fs ticks vp).exit = Exit.broke ∧
    (run luma fs ticks vp).effects = (workerLoop luma ticks (vp.opened cap) cap.frames).effects
        ++ [Effect.emit Signal.processingFinished] := by
  unfold run
  rw [hopen]
  simp [hexit]

theorem emitted_finished (es : List Effect) :
    emitted (es ++ [Effect.emit Signal.processingFinished]) = emitted es := by
  rw [emitted_append]
  simp [emitted]

/-- Claim C1: `run()` on a stream of non-empty frames of one size, with constant
frame delta `d` and constant threshold, no pause and no stop, and a schedule long
enough to reach the end of the stream, emits one pair per frame; the `i`-th pair
carries frame `i` with the blank mask when `i < d`, and with
`motionMask frame[i] frame[i-d] threshold` when `d ≤ i`. -/
theorem run_masks_constant_delta (luma : Bgr → Fin 256) (fs : String → Option VideoCapture)
    (ticks : List Tick) (vp : VideoProcessor) (cap : VideoCapture) (r c d : Nat)
    (hopen : fs vp.filePath = some cap)
    (hframes : ∀ f ∈ cap.frames, f.empty = false ∧ f.rows = r ∧ f.cols = c)
    (hquiet : ∀ tk ∈ ticks, tk.cmds = [] ∧ tk.late = [])
    (hlen : cap.frames.length < ticks.length)
    (hstop : vp.stopRequested = false) (hpause : vp.pauseRequested = false)
    (hmax : (d : Int) < INT_MAX) (hdelta : vp.frameDelta = (d : Int)) :
    (emitted (run luma fs ticks vp).effects).length = cap.frames.length ∧
    ∀ (i : Nat) (fi : Frame), cap.frames[i]? = some fi →
      ∃ mask, (emitted (run luma fs ticks vp).effects)[i]? = some (fi, mask) ∧
        (i < d → mask = Mat.blank) ∧
        (d ≤ i → ∃ fo, cap.frames[i - d]? = some fo ∧
          motionMask luma fi fo vp.motionThreshold = some mask) := by
  have h := workerLoop_quiet luma r c d vp.motionThreshold hmax cap.frames [] ticks
    (vp.opened cap)
    hstop hpause hdelta rfl (by simp [VideoProcessor.opened]) (fun f hf => (hframes f (by simpa using hf)).2)
    (fun f hf => (hframes f hf).1) hquiet hlen
  obtain ⟨hexit, heff⟩ := run_of_broke luma fs ticks vp cap hopen h.1
  rw [heff, emitted_finished]
  refine ⟨h.2.1, ?_⟩
  intro i fi hi
  obtain ⟨mask, h1, h2, h3⟩ := h.2.2 i fi hi
  refine ⟨mask, h1, fun hlt => h2 (by simpa using hlt), fun hge => ?_⟩
  obtain ⟨fo, hfo, hm⟩ := h3 (by simpa using hge)
  exact ⟨fo, by simpa using hfo, hm⟩

/-- Witness for C1: ten frames, frame delta 2: ten pairs, the first two masks are
blank and from the third on the mask compares frame `i` with frame `i - 2`. -/
theorem run_masks_constant_delta_witness :
    (emitted (run sampleLuma sampleFs quietTicks sampleProcessor).effects).length = 10 ∧
    ∀ (i : Nat) (fi : Frame), sampleCapture.frames[i]? = some fi →
      ∃ mask, (emitted (run sampleLuma sampleFs quietTicks sampleProcessor).effects)[i]?
          = some (fi, mask) ∧
        (i < 2 → mask = Mat.blank) ∧
        (2 ≤ i → ∃ fo, sampleCapture.frames[i - 2]? = some fo ∧
          motionMask sampleLuma fi fo 30 = some mask) :=
  run_masks_constant_delta sampleLuma sampleFs quietTicks sampleProcessor sampleCapture 1 1 2
    rfl (by decide) (by decide) (by decide) rfl rfl (by decide) rfl

/-- Claim C2: `run()` on a stream of `n` non-empty frames of one size, with any
configuration calls landing between or during the passes and no stop or pause,
reaches the end of the stream and emits exactly `n` `newFramesReady` signals whose
original frames are the decoded frames in capture order. -/
theorem run_emits_every_frame_in_order (luma : Bgr → Fin 256)
    (fs : String → Option VideoCapture) (ticks : List Tick) (vp : VideoProcessor)
    (cap : VideoCapture) (r c : Nat)
    (hopen : fs vp.filePath = some cap)
    (hframes : ∀ f ∈ cap.frames, f.empty = false ∧ f.rows = r ∧ f.cols = c)
    (hcmds : ∀ tk ∈ ticks, ∀ cmd ∈ tk.cmds ++ tk.late, cmd.IsConfigCall)
    (hlen : cap.frames.length < ticks.length)
    (hstop : vp.stopRequested = false) (hpause : vp.pauseRequested = false)
    (hdelta : 1 ≤ vp.frameDelta ∧ vp.frameDelta ≤ INT_MAX) :
    (run luma fs ticks vp).exit = Exit.broke ∧
    (emitted (run luma fs ticks vp).effects).length = cap.frames.length ∧
    (emitted (run luma fs ticks vp).effects).map Prod.fst = cap.frames ∧
    ∀ i : Nat, ((emitted (run luma fs ticks vp).effects)[i]?).map Prod.fst = cap.frames[i]? := by
  have h := workerLoop_config luma r c cap.frames ticks
    (vp.opened cap)
    ⟨hstop, hpause, hdelta.1, hdelta.2, by simp [VideoProcessor.opened]⟩ hframes hcmds hlen
  obtain ⟨hexit, heff⟩ := run_of_broke luma fs ticks vp cap hopen h.1
  rw [heff, emitted_finished]
  refine ⟨hexit, ?_, h.2, ?_⟩
  · rw [← List.length_map (emitted _) Prod.fst, h.2]
  · intro i
    rw [← List.getElem?_map, h.2]

/-- Witness for C2: ten frames with valid and invalid setter calls landing
mid-stream: ten emissions, in capture order. -/
theorem run_emits_every_frame_in_order_witness :
    (run sampleLuma sampleFs busyTicks sampleProcessor).exit = Exit.broke ∧
    (emitted (run sampleLuma sampleFs busyTicks sampleProcessor).effects).length = 10 ∧
    (emitted (run sampleLuma sampleFs busyTicks sampleProcessor).effects).map Prod.fst
      = sampleCapture.frames ∧
    ∀ i : Nat, ((emitted (run sampleLuma sampleFs busyTicks sampleProcessor).effects)[i]?).map
      Prod.fst = sampleCapture.frames[i]? :=
  run_emits_every_frame_in_order sampleLuma sampleFs busyTicks sampleProcessor sampleCapture 1 1
    rfl (by decide) (by simp [busyTicks, Command.IsConfigCall, INT_MIN, INT_MAX])
    (by decide) rfl rfl (by decide)

/-! ## Configuration slots -/

theorem callSetters_keeps_range (calls : List Setter) (vp : VideoProcessor)
    (h : 1 ≤ vp.frameDelta ∧ 0 ≤ vp.motionThreshold ∧ vp.motionThreshold ≤ 255) :
    (1 ≤ (callSetters calls vp).1.frameDelta ∧ 0 ≤ (callSetters calls vp).1.motionThreshold ∧
      (callSetters calls vp).1.motionThreshold ≤ 255) ∧ (callSetters calls vp).2 = [] := by
  induction calls generalizing vp with
  | nil => exact ⟨h, rfl⟩
  | cons s rest ih =>
    have hstep : (1 ≤ (s.call vp).1.frameDelta ∧ 0 ≤ (s.call vp).1.motionThreshold ∧
        (s.call vp).1.motionThreshold ≤ 255) ∧ (s.call vp).2 = [] := by
      cases s with
      | frameDelta n =>
        simp only [Setter.call, setFrameDelta]
        split_ifs with hn
        · exact ⟨⟨by simpa using hn, h.2⟩, rfl⟩
        · exact ⟨h, rfl⟩
      | motionThreshold t =>
        simp only [Setter.call, setMotionThreshold]
        split_ifs with ht
        · exact ⟨⟨h.1, ht⟩, rfl⟩
        · exact ⟨h, rfl⟩
    have hrest := ih (s.call vp).1 hstep.1
    simp only [callSetters]
    exact ⟨hrest.1, by rw [hstep.2, hrest.2]; rfl⟩

/-- Claim C5: `setFrameDelta` with a value `≤ 0` and `setMotionThreshold` with a
value outside `[0, 255]` leave every field unchanged and emit nothing; a valid
value is stored in exactly its field, nothing is emitted; and after any sequence
of setter calls on a newly constructed object the frame delta is `≥ 1` and the
threshold is in `[0, 255]`, with no signal emitted. -/
theorem setters_reject_invalid_and_store_valid (vp : VideoProcessor)
    (nBad nOk tBad tOk : Int) (calls : List Setter)
    (hnBad : nBad ≤ 0) (htBad : tBad < 0 ∨ 255 < tBad)
    (hnOk : 1 ≤ nOk) (htOk : 0 ≤ tOk ∧ tOk ≤ 255) :
    setFrameDelta nBad vp = (vp, []) ∧
    setMotionThreshold tBad vp = (vp, []) ∧
    setFrameDelta nOk vp = ({ vp with frameDelta := nOk }, []) ∧
    setMotionThreshold tOk vp = ({ vp with motionThreshold := tOk }, []) ∧
    (callSetters calls VideoProcessor.init).2 = [] ∧
    1 ≤ (callSetters calls VideoProcessor.init).1.frameDelta ∧
    0 ≤ (callSetters calls VideoProcessor.init).1.motionThreshold ∧
    (callSetters calls VideoProcessor.init).1.motionThreshold ≤ 255 := by
  have hinv := callSetters_keeps_range calls VideoProcessor.init
    (by simp [VideoProcessor.init])
  refine ⟨?_, ?_, ?_, ?_, hinv.2, hinv.1⟩
  · unfold setFrameDelta
    rw [if_neg (by omega)]
  · unfold setMotionThreshold
    rw [if_neg (by omega)]
  · unfold setFrameDelta
    rw [if_pos (by omega)]
  · unfold setMotionThreshold
    rw [if_pos htOk]

/-- Witness for C5: `setFrameDelta(0)` and `setMotionThreshold(-1)` are rejected,
`setFrameDelta(7)` and `setMotionThreshold(255)` are stored. -/
theorem setters_reject_invalid_and_store_valid_witness :
    setFrameDelta 0 VideoProcessor.init = (VideoProcessor.init, []) ∧
    setMotionThreshold (-1) VideoProcessor.init = (VideoProcessor.init, []) ∧
    setFrameDelta 7 VideoProcessor.init = ({ VideoProcessor.init with frameDelta := 7 }, []) ∧
    setMotionThreshold 255 VideoProcessor.init
      = ({ VideoProcessor.init with motionThreshold := 255 }, []) ∧
    (callSetters [Setter.frameDelta (-4), Setter.motionThreshold 256, Setter.frameDelta 9]
      VideoProcessor.init).2 = [] ∧
    1 ≤ (callSetters [Setter.frameDelta (-4), Setter.motionThreshold 256, Setter.frameDelta 9]
      VideoProcessor.init).1.frameDelta ∧
    0 ≤ (callSetters [Setter.frameDelta (-4), Setter.motionThreshold 256, Setter.frameDelta 9]
      VideoProcessor.init).1.motionThreshold ∧
    (callSetters [Setter.frameDelta (-4), Setter.motionThreshold 256, Setter.frameDelta 9]
      VideoProcessor.init).1.motionThreshold ≤ 255 :=
  setters_reject_invalid_and_store_valid VideoProcessor.init 0 7 (-1) 255
    [Setter.frameDelta (-4), Setter.motionThreshold 256, Setter.frameDelta 9]
    (by decide) (by decide) (by decide) (by decide)

/-! ## Loading and starting -/

/-- Claim C10: `loadVideo` of a path that cannot be opened, on an object whose
worker is not running, emits exactly one `errorOccurred` and nothing else, and
leaves the stored path empty whatever it was before; a following
`startProcessing` emits `errorOccurred` and changes no field, so the worker is not
started. -/
theorem loadVideo_failure_keeps_no_path (fs : String → Option VideoCapture) (path : String)
    (vp : VideoProcessor) (hfail : fs path = none) (hidle : vp.threadRunning = false) :
    (loadVideo fs path vp).2 = [Signal.errorOccurred ("Failed to open video file: " ++ path)] ∧
    (loadVideo fs path vp).1 = { vp with filePath := "" } ∧
    (loadVideo fs path vp).1.filePath = "" ∧
    (loadVideo fs path vp).1.threadRunning = false ∧
    startProcessing (loadVideo fs path vp).1
      = ((loadVideo fs path vp).1, [Signal.errorOccurred "No video file loaded."]) := by
  have hload : loadVideo fs path vp
      = ({ vp with filePath := "" },
          [Signal.errorOccurred ("Failed to open video file: " ++ path)]) := by
    unfold loadVideo
    simp only [hidle, Bool.false_eq_true, if_false, hfail]
  rw [hload]
  refine ⟨rfl, rfl, rfl, hidle, ?_⟩
  unfold startProcessing
  rw [if_pos (by rfl)]

/-- Witness for C10: loading a missing file after an earlier file was loaded. -/
theorem loadVideo_failure_keeps_no_path_witness :
    (loadVideo (fun _ => none) "missing.avi"
      { VideoProcessor.init with filePath := "earlier.avi" }).2
        = [Signal.errorOccurred ("Failed to open video file: " ++ "missing.avi")] ∧
    (loadVideo (fun _ => none) "missing.avi"
      { VideoProcessor.init with filePath := "earlier.avi" }).1
        = { ({ VideoProcessor.init with filePath := "earlier.avi" } : VideoProcessor) with
            filePath := "" } ∧
    (loadVideo (fun _ => none) "missing.avi"
      { VideoProcessor.init with filePath := "earlier.avi" }).1.filePath = "" ∧
    (loadVideo (fun _ => none) "missing.avi"
      { VideoProcessor.init with filePath := "earlier.avi" }).1.threadRunning = false ∧
    startProcessing (loadVideo (fun _ => none) "missing.avi"
      { VideoProcessor.init with filePath := "earlier.avi" }).1
        = ((loadVideo (fun _ => none) "missing.avi"
            { VideoProcessor.init with filePath := "earlier.avi" }).1,
          [Signal.errorOccurred "No video file loaded."]) :=
  loadVideo_failure_keeps_no_path (fun _ => none) "missing.avi"
    { VideoProcessor.init with filePath := "earlier.avi" } rfl rfl

/-! ## The motion mask -/

theorem absdiff8_val (x y : Fin 256) :
    ((absdiff8 x y).val : Int) = |(x.val : Int) - (y.val : Int)| := by
  unfold absdiff8
  split_ifs with h
  · have hle : y.val ≤ x.val := h
    rw [Fin.sub_def]
    simp only []
    rw [abs_of_nonneg (by omega)]
    omega
  · have hlt : x.val < y.val := by
      have := Fin.not_le.mp h
      exact this
    rw [Fin.sub_def]
    simp only []
    rw [abs_of_neg (by omega)]
    omega

theorem motionMask_data (luma : Bgr → Fin 256) (t : Int) (l1 l2 : List Bgr) :
    (List.zipWith absdiff8 (l1.map luma) (l2.map luma)).map
        (fun v => if t < (v.val : Int) then (255 : Fin 256) else 0)
      = List.zipWith
          (fun p q => if t < |((luma p).val : Int) - ((luma q).val : Int)| then (255 : Fin 256)
            else 0) l1 l2 := by
  induction l1 generalizing l2 with
  | nil => simp
  | cons a as ih =>
    cases l2 with
    | nil => simp
    | cons b bs =>
      simp only [List.map_cons, List.zipWith_cons_cons, ih bs, absdiff8_val]

/-- Claim C6: for two well-formed frames of the same size and a threshold in
`[0, 255]`, the mask computed by the loop is the reference mask: it has the
inputs' rows and columns, one pixel per input pixel, each pixel 255 where the
absolute luminance difference is strictly greater than the threshold and 0
elsewhere; so it is binary, and all zero when the two frames are equal. -/
theorem motionMask_meets_reference (luma : Bgr → Fin 256) (a b : Frame) (t : Int)
    (hsize : a.rows = b.rows ∧ a.cols = b.cols) (hwa : a.WellFormed) (hwb : b.WellFormed)
    (ht : 0 ≤ t ∧ t ≤ 255) :
    motionMask luma a b t = some (detectSpec luma a b t) ∧
    (detectSpec luma a b t).rows = a.rows ∧ (detectSpec luma a b t).cols = a.cols ∧
    (detectSpec luma a b t).WellFormed ∧
    (∀ (i : Nat) (p q : Bgr), a.data[i]? = some p → b.data[i]? = some q →
      (detectSpec luma a b t).data[i]?
        = some (if t < |((luma p).val : Int) - ((luma q).val : Int)| then 255 else 0)) ∧
    (∀ v ∈ (detectSpec luma a b t).data, v = 0 ∨ v = 255) ∧
    (a = b → ∀ v ∈ (detectSpec luma a b t).data, v = 0) := by
  refine ⟨?_, rfl, rfl, ?_, ?_, ?_, ?_⟩
  · rw [motionMask_sameSize luma a b t hsize.1 hsize.2]
    simp only [threshold, detectSpec, motionMask_data]
  · unfold Mat.WellFormed at *
    simp only [detectSpec, List.length_zipWith]
    rw [hwa, hwb, hsize.1, hsize.2]
    simp
  · intro i p q hp hq
    simp only [detectSpec, List.getElem?_zipWith, hp, hq]
  · intro v hv
    simp only [detectSpec] at hv
    rw [List.mem_iff_getElem?] at hv
    obtain ⟨n, hn⟩ := hv
    rw [List.getElem?_zipWith] at hn
    cases hp : a.data[n]? with
    | none => simp [hp] at hn
    | some p =>
      cases hq : b.data[n]? with
      | none => simp [hp, hq] at hn
      | some q =>
        simp only [hp, hq] at hn
        have : v = (if t < |((luma p).val : Int) - ((luma q).val : Int)| then 255 else 0) := by
          simpa using hn.symm
        rw [this]
        split_ifs
        · exact Or.inr rfl
        · exact Or.inl rfl
  · intro hab v hv
    subst hab
    simp only [detectSpec] at hv
    rw [List.mem_iff_getElem?] at hv
    obtain ⟨n, hn⟩ := hv
    rw [List.getElem?_zipWith] at hn
    cases hp : a.data[n]? with
    | none => simp [hp] at hn
    | some p =>
      simp only [hp] at hn
      have : v = (if t < |((luma p).val : Int) - ((luma p).val : Int)| then 255 else 0) := by
        simpa using hn.symm
      rw [this, sub_self, abs_zero, if_neg (by omega)]

/-- Witness for C6: two pixels, differences 30 and 31, threshold 30: mask 0, 255. -/
theorem motionMask_meets_reference_witness :
    motionMask sampleLuma ⟨1, 2, [⟨0, 10, 0⟩, ⟨0, 200, 0⟩]⟩ ⟨1, 2, [⟨0, 40, 0⟩, ⟨0, 169, 0⟩]⟩ 30
      = some ⟨1, 2, [0, 255]⟩ := by
  have h := (motionMask_meets_reference sampleLuma ⟨1, 2, [⟨0, 10, 0⟩, ⟨0, 200, 0⟩]⟩
    ⟨1, 2, [⟨0, 40, 0⟩, ⟨0, 169, 0⟩]⟩ 30 (by decide) (by decide) (by decide) (by decide)).1
  rw [h]
  decide

/-! ## Lemmas on double rounding -/

theorem log2_eq (x : ℚ) (e : Int) (h1 : (2 : ℚ) ^ e ≤ x) (h2 : x < (2 : ℚ) ^ (e + 1)) :
    Int.log 2 x = e := by
  have hx : 0 < x := lt_of_lt_of_le (by positivity) h1
  have a : e ≤ Int.log 2 x :=
    (Int.zpow_le_iff_le_log (by norm_num) hx).mp (by simpa using h1)
  have b : Int.log 2 x < e + 1 :=
    (Int.lt_zpow_iff_log_lt (by norm_num) hx).mp (by simpa using h2)
  omega

theorem ulp_eq (x : ℚ) (e : Int) (h1 : (2 : ℚ) ^ e ≤ x) (h2 : x < (2 : ℚ) ^ (e + 1))
    (he : -1022 ≤ e) : ulp x = (2 : ℚ) ^ (e - 52) := by
  have hx : 0 < x := lt_of_lt_of_le (by positivity) h1
  unfold ulp
  rw [abs_of_pos hx, log2_eq x e h1 h2, max_eq_left he]

theorem ulp_pos (x : ℚ) : 0 < ulp x := by
  unfold ulp
  positivity

theorem roundHalfEven_near (y : ℚ) (n : Int) (h1 : (n : ℚ) - 1 / 2 < y) (h2 : y < n + 1 / 2) :
    roundHalfEven y = n := by
  unfold roundHalfEven
  rcases lt_or_le y (n : ℚ) with hlt | hge
  · have hfl : ⌊y⌋ = n - 1 := by
      rw [Int.floor_eq_iff]
      push_cast
      constructor <;> linarith
    rw [hfl]
    push_cast
    rw [if_neg (by linarith), if_pos (by linarith)]
    ring
  · have hfl : ⌊y⌋ = n := by
      rw [Int.floor_eq_iff]
      constructor <;> linarith
    rw [hfl, if_pos (by linarith)]

theorem roundHalfEven_tie_even (y : ℚ) (n : Int) (hy : y = n + 1 / 2) (hn : n % 2 = 0) :
    roundHalfEven y = n := by
  unfold roundHalfEven
  have hfl : ⌊y⌋ = n := by
    rw [Int.floor_eq_iff]
    constructor <;> linarith
  rw [hfl, if_neg (by linarith), if_neg (by linarith), if_pos hn]

theorem floor_le_roundHalfEven (y : ℚ) : ⌊y⌋ ≤ roundHalfEven y := by
  unfold roundHalfEven
  split_ifs <;> omega

theorem le_roundHalfEven (A : Int) (y : ℚ) (h : (A : ℚ) ≤ y) : A ≤ roundHalfEven y :=
  le_trans (Int.le_floor.mpr h) (floor_le_roundHalfEven y)

theorem roundHalfEven_le (B : Int) (y : ℚ) (h : y ≤ (B : ℚ)) : roundHalfEven y ≤ B := by
  have hfl : ⌊y⌋ ≤ B := by
    have := Int.floor_le y
    exact_mod_cast le_trans this h
  have hlt : y < ⌊y⌋ + 1 := Int.lt_floor_add_one y
  have hup : 1 / 2 ≤ y - ⌊y⌋ → ⌊y⌋ + 1 ≤ B := by
    intro hfr
    by_contra hcon
    have hB : ⌊y⌋ = B := by omega
    have : y ≤ (⌊y⌋ : ℚ) := by rw [hB]; exact h
    linarith
  unfold roundHalfEven
  split_ifs with h1 h2 h3
  · exact hfl
  · exact hup (le_of_lt h2)
  · exact hfl
  · exact hup (not_lt.mp h1)

theorem abs_roundHalfEven_sub_le (y : ℚ) : |(roundHalfEven y : ℚ) - y| ≤ 1 / 2 := by
  have hle : (⌊y⌋ : ℚ) ≤ y := Int.floor_le y
  have hlt : y < ⌊y⌋ + 1 := Int.lt_floor_add_one y
  unfold roundHalfEven
  rw [abs_le]
  split_ifs with h1 h2 h3 <;> push_cast <;> constructor <;> linarith

theorem roundDouble_sandwich (x : ℚ) (A B : Int) (hx0 : 0 < x) (hx : x < (2 : ℚ) ^ (50 : Int))
    (ha : (A : ℚ) / 4 ≤ x) (hb : x ≤ (B : ℚ) / 4) :
    (A : ℚ) / 4 ≤ roundDouble x ∧ roundDouble x ≤ (B : ℚ) / 4 := by
  have hlog : Int.log 2 x < 50 :=
    (Int.lt_zpow_iff_log_lt (by norm_num) hx0).mp (by simpa using hx)
  obtain ⟨m, hm⟩ : ∃ m : Nat, (m : Int) = -2 - (max (Int.log 2 |x|) (-1022) - 52) := by
    refine ⟨(-2 - (max (Int.log 2 |x|) (-1022) - 52)).toNat, ?_⟩
    rw [abs_of_pos hx0]
    have : max (Int.log 2 x) (-1022) < 50 := max_lt hlog (by norm_num)
    omega
  have hu : ulp x * (2 : ℚ) ^ m = 1 / 4 := by
    unfold ulp
    rw [← zpow_natCast, ← zpow_add₀ (by norm_num), hm]
    have : max (Int.log 2 |x|) (-1022) - 52 + (-2 - (max (Int.log 2 |x|) (-1022) - 52)) = -2 := by
      ring
    rw [this]
    norm_num
  have hup := ulp_pos x
  have hA : (A : ℚ) / 4 = ((A * 2 ^ m : Int) : ℚ) * ulp x := by
    push_cast
    rw [mul_assoc, mul_comm ((2 : ℚ) ^ m), hu]
    ring
  have hB : (B : ℚ) / 4 = ((B * 2 ^ m : Int) : ℚ) * ulp x := by
    push_cast
    rw [mul_assoc, mul_comm ((2 : ℚ) ^ m), hu]
    ring
  unfold roundDouble
  constructor
  · rw [hA]
    apply mul_le_mul_of_nonneg_right _ hup.le
    have : ((A * 2 ^ m : Int) : ℚ) ≤ x / ulp x := by
      rw [le_div_iff₀ hup, ← hA]
      exact ha
    exact_mod_cast le_roundHalfEven _ _ this
  · rw [hB]
    apply mul_le_mul_of_nonneg_right _ hup.le
    have : x / ulp x ≤ ((B * 2 ^ m : Int) : ℚ) := by
      rw [div_le_iff₀ hup, ← hB]
      exact hb
    exact_mod_cast roundHalfEven_le _ _ this

theorem roundDouble_rel_err (x : ℚ) (hx : (2 : ℚ) ^ (-1022 : Int) ≤ x) :
    |roundDouble x - x| ≤ x / 2 ^ 53 := by
  have hx0 : 0 < x := lt_of_lt_of_le (by positivity) hx
  have hlo : (2 : ℚ) ^ Int.log 2 x ≤ x := by
    simpa using Int.zpow_log_le_self (b := 2) (r := x) (by norm_num) hx0
  have he : -1022 ≤ Int.log 2 x :=
    (Int.zpow_le_iff_le_log (by norm_num) hx0).mp (by simpa using hx)
  have hulp : ulp x = (2 : ℚ) ^ Int.log 2 x / 2 ^ 52 := by
    unfold ulp
    rw [abs_of_pos hx0, max_eq_left he]
    have : Int.log 2 x - 52 = Int.log 2 x + (-52) := by ring
    rw [this, zpow_add₀ (by norm_num)]
    norm_num
    ring
  have hup := ulp_pos x
  have hr := abs_roundHalfEven_sub_le (x / ulp x)
  have heq : roundDouble x - x = ((roundHalfEven (x / ulp x) : ℚ) - x / ulp x) * ulp x := by
    unfold roundDouble
    field_simp
  rw [heq, abs_mul, abs_of_pos hup]
  calc |(roundHalfEven (x / ulp x) : ℚ) - x / ulp x| * ulp x
      ≤ 1 / 2 * ulp x := mul_le_mul_of_nonneg_right hr hup.le
    _ = (2 : ℚ) ^ Int.log 2 x / 2 ^ 53 := by rw [hulp]; ring
    _ ≤ x / 2 ^ 53 := by
      apply div_le_div_of_nonneg_right hlo (by positivity)

/-! ## The target delay -/

theorem castInt_of_floor (v : ℚ) (n : Int) (hfl : ⌊v⌋ = n) (h0 : 0 ≤ n) (hmax : n ≤ INT_MAX) :
    castInt v = n := by
  have hv : 0 ≤ v := by
    have : ((0 : Int) : ℚ) ≤ v := Int.le_floor.mp (by rw [hfl]; exact h0)
    simpa using this
  unfold castInt
  simp only [if_pos hv, hfl]
  rw [if_pos ⟨by unfold INT_MIN; omega, hmax⟩]

theorem ddiv_1000_30 : ddiv 1000 30 = 4691249611844267 / 140737488355328 := by
  unfold ddiv roundDouble
  rw [ulp_eq (1000 / 30) 5 (by norm_num) (by norm_num) (by norm_num),
    roundHalfEven_near _ 4691249611844267 (by norm_num) (by norm_num)]
  norm_num

theorem delayMs_at_30_3 : delayMs 30 3 = 100 := by
  have hprod : dmul (ddiv 1000 30) ((3 : Int) : ℚ) = 100 := by
    rw [ddiv_1000_30]
    unfold dmul roundDouble
    rw [ulp_eq _ 6 (by norm_num) (by norm_num) (by norm_num),
      roundHalfEven_tie_even _ 7036874417766400 (by norm_num) (by decide)]
    norm_num
  unfold delayMs
  simp only [hprod]
  rw [castInt_of_floor 100 100 (by norm_num) (by decide) (by decide), if_neg (by decide)]

theorem defaultFps_of_nonpos (fps : ℚ) (h : fps ≤ 0) : defaultFps fps = 30 := by
  unfold defaultFps
  rw [if_pos h]

theorem defaultFps_of_pos (fps : ℚ) (h : 0 < fps) : defaultFps fps = fps := by
  unfold defaultFps
  rw [if_neg (not_le.mpr h)]

theorem targetIntervalSpec_at_30_3 : targetIntervalSpec 30 3 = 99 := by
  unfold targetIntervalSpec
  have : round ((1000 : ℚ) / 30) = 33 := by
    rw [round_eq, Int.floor_eq_iff]
    constructor <;> norm_num
  rw [this]
  rfl

/-- Claim C7: at a source frame rate of 30 fps and frame delta 3 the target delay
computed by the loop is exactly 100 ms. -/
theorem delay_at_30fps_delta3 : delayMs (defaultFps 30) 3 = 100 := by
  rw [defaultFps_of_pos 30 (by norm_num)]
  exact delayMs_at_30_3

/-- Counterexample to C8: at a reported frame rate of 0 and frame delta 3 the loop
computes 100 ms, not the fallback `33 * 3 = 99`. -/
theorem unknown_fps_delay_not_fallback :
    delayMs (defaultFps 0) 3 = 100 ∧ delayMs (defaultFps 0) 3 ≠ 33 * 3 := by
  rw [defaultFps_of_nonpos 0 (le_refl 0), delayMs_at_30_3]
  exact ⟨rfl, by decide⟩

theorem delayMs_at_30 (delta : Int) (h1 : 1 ≤ delta) (h2 : delta ≤ 64424509) :
    delayMs 30 delta = 100 * delta / 3 := by
  have hN1 : 3 * (100 * delta / 3) ≤ 100 * delta := by omega
  have hN2 : 100 * delta ≤ 3 * (100 * delta / 3) + 2 := by omega
  have hN3 : 33 ≤ 100 * delta / 3 := by omega
  have hN4 : 100 * delta / 3 ≤ 2147483633 := by omega
  have q1 : (3 : ℚ) * ((100 * delta / 3 : Int) : ℚ) ≤ 100 * (delta : ℚ) := by exact_mod_cast hN1
  have q2 : 100 * (delta : ℚ) ≤ 3 * ((100 * delta / 3 : Int) : ℚ) + 2 := by exact_mod_cast hN2
  have q3 : (33 : ℚ) ≤ ((100 * delta / 3 : Int) : ℚ) := by exact_mod_cast hN3
  have q4 : ((100 * delta / 3 : Int) : ℚ) ≤ 2147483633 := by exact_mod_cast hN4
  have d1 : (1 : ℚ) ≤ (delta : ℚ) := by exact_mod_cast h1
  have d2 : (delta : ℚ) ≤ 64424509 := by exact_mod_cast h2
  have hs := roundDouble_sandwich (4691249611844267 / 140737488355328 * (delta : ℚ))
    (4 * (100 * delta / 3)) (4 * (100 * delta / 3) + 3)
    (by positivity)
    (by norm_num; linarith)
    (by push_cast; linarith)
    (by push_cast; linarith)
  have hfl : ⌊dmul (ddiv 1000 30) (delta : ℚ)⌋ = 100 * delta / 3 := by
    rw [ddiv_1000_30]
    unfold dmul
    rw [Int.floor_eq_iff]
    constructor
    · have := hs.1
      push_cast at this
      linarith
    · have := hs.2
      push_cast at this
      linarith
  unfold delayMs
  simp only [castInt_of_floor _ _ hfl (by omega) (by unfold INT_MAX; omega)]
  rw [if_neg (by omega)]

/-- Claim C8, amended: a reported frame rate `≤ 0` is replaced by 30, and the target
delay is the one of a 30 fps source, `100 * delta / 3` rounded down, for every
frame delta from 1 to 64424509. -/
theorem unknown_fps_uses_30fps_delay (fps : ℚ) (delta : Int) (hfps : fps ≤ 0)
    (h1 : 1 ≤ delta) (h2 : delta ≤ 64424509) :
    defaultFps fps = 30 ∧
    delayMs (defaultFps fps) delta = delayMs 30 delta ∧
    delayMs (defaultFps fps) delta = 100 * delta / 3 := by
  rw [defaultFps_of_nonpos fps hfps]
  exact ⟨rfl, rfl, delayMs_at_30 delta h1 h2⟩

/-- Witness for C8 as amended: reported frame rate -1, frame delta 5. -/
theorem unknown_fps_uses_30fps_delay_witness :
    defaultFps (-1) = 30 ∧
    delayMs (defaultFps (-1)) 5 = delayMs 30 5 ∧
    delayMs (defaultFps (-1)) 5 = 100 * 5 / 3 :=
  unknown_fps_uses_30fps_delay (-1) 5 (by norm_num) (by decide) (by decide)

/-- Counterexample to C9: at 30 fps and frame delta 3 the loop computes 100 ms,
while `round(1000 / 30) * 3` is 99. -/
theorem delay_is_not_rounded_interval_times_delta :
    delayMs (defaultFps 30) 3 = 100 ∧ targetIntervalSpec 30 3 = 99 ∧
    delayMs (defaultFps 30) 3 ≠ targetIntervalSpec 30 3 := by
  rw [defaultFps_of_pos 30 (by norm_num), delayMs_at_30_3, targetIntervalSpec_at_30_3]
  exact ⟨rfl, rfl, by decide⟩

theorem dmul_ddiv_rel_err (fps : ℚ) (delta : Int) (hfps : 0 < fps) (h1 : 1 ≤ delta)
    (hmax : delta ≤ INT_MAX) (hlo : 2 ≤ 1000 * (delta : ℚ) / fps) :
    |dmul (ddiv 1000 fps) (delta : ℚ) - 1000 * (delta : ℚ) / fps|
      ≤ 1000 * (delta : ℚ) / fps / 2 ^ 51 := by
  have d1 : (1 : ℚ) ≤ (delta : ℚ) := by exact_mod_cast h1
  have d2 : (delta : ℚ) ≤ 2147483647 := by
    have : delta ≤ 2147483647 := hmax
    exact_mod_cast this
  have hq : 0 < 1000 / fps := by positivity
  have hX : 1000 * (delta : ℚ) / fps = 1000 / fps * (delta : ℚ) := by ring
  rw [hX] at hlo ⊢
  have hqlo : (2 : ℚ) ^ (-1022 : Int) ≤ 1000 / fps := by
    have hsmall : (2 : ℚ) ^ (-1022 : Int) ≤ (2 : ℚ) ^ (-31 : Int) :=
      zpow_le_zpow_right₀ (by norm_num) (by norm_num)
    have h31 : (2 : ℚ) ^ (-31 : Int) = 1 / 2147483648 := by norm_num
    have hmul : 1000 / fps * (delta : ℚ) ≤ 1000 / fps * 2147483647 :=
      mul_le_mul_of_nonneg_left d2 hq.le
    rw [h31] at hsmall
    linarith
  have e1 := abs_le.mp (roundDouble_rel_err (1000 / fps) hqlo)
  have hd0 : (0 : ℚ) ≤ (delta : ℚ) := by linarith
  have m1 := mul_le_mul_of_nonneg_right e1.1 hd0
  have m2 := mul_le_mul_of_nonneg_right e1.2 hd0
  have hx2lo : (2 : ℚ) ^ (-1022 : Int) ≤ roundDouble (1000 / fps) * (delta : ℚ) := by
    have hsmall : (2 : ℚ) ^ (-1022 : Int) ≤ (2 : ℚ) ^ (0 : Int) :=
      zpow_le_zpow_right₀ (by norm_num) (by norm_num)
    rw [zpow_zero] at hsmall
    linarith
  have e2 := abs_le.mp (roundDouble_rel_err _ hx2lo)
  unfold dmul ddiv
  rw [abs_le]
  constructor <;> linarith

/-- Claim C9, amended: for a frame rate `fps > 0` and a frame delta `delta ≥ 1` with
`2 ≤ 1000 * delta / fps ≤ 2147483646`, the target delay is the double product
`(1000.0 / fps) * delta` truncated to a whole number of milliseconds, the product
being formed before the truncation; that product is within a relative `2^-51`
of the exact `1000 * delta / fps`. -/
theorem delay_truncates_double_product (fps : ℚ) (delta : Int) (hfps : 0 < fps)
    (h1 : 1 ≤ delta) (hmax : delta ≤ INT_MAX)
    (hlo : 2 ≤ 1000 * (delta : ℚ) / fps) (hhi : 1000 * (delta : ℚ) / fps ≤ 2147483646) :
    delayMs (defaultFps fps) delta = ⌊dmul (ddiv 1000 fps) (delta : ℚ)⌋ ∧
    |dmul (ddiv 1000 fps) (delta : ℚ) - 1000 * (delta : ℚ) / fps|
      ≤ 1000 * (delta : ℚ) / fps / 2 ^ 51 ∧
    1000 * (delta : ℚ) / fps * (1 - 1 / 2 ^ 51) - 1 < (delayMs (defaultFps fps) delta : ℚ) ∧
    (delayMs (defaultFps fps) delta : ℚ) ≤ 1000 * (delta : ℚ) / fps * (1 + 1 / 2 ^ 51) := by
  have herr := dmul_ddiv_rel_err fps delta hfps h1 hmax hlo
  have e := abs_le.mp herr
  have hfl1 : 1 ≤ ⌊dmul (ddiv 1000 fps) (delta : ℚ)⌋ := by
    rw [Int.le_floor]
    push_cast
    linarith
  have hfl2 : ⌊dmul (ddiv 1000 fps) (delta : ℚ)⌋ ≤ INT_MAX := by
    have : ⌊dmul (ddiv 1000 fps) (delta : ℚ)⌋ < 2147483647 := by
      rw [Int.floor_lt]
      push_cast
      linarith
    unfold INT_MAX
    omega
  have hdelay : delayMs (defaultFps fps) delta = ⌊dmul (ddiv 1000 fps) (delta : ℚ)⌋ := by
    rw [defaultFps_of_pos fps hfps]
    unfold delayMs
    simp only [castInt_of_floor _ _ rfl (by omega) hfl2]
    rw [if_neg (by omega)]
  have hle := Int.floor_le (dmul (ddiv 1000 fps) (delta : ℚ))
  have hlt := Int.lt_floor_add_one (dmul (ddiv 1000 fps) (delta : ℚ))
  rw [hdelay]
  refine ⟨rfl, herr, ?_, ?_⟩ <;> linarith

/-- Witness for C9 as amended: 25 fps, frame delta 2. -/
theorem delay_truncates_double_product_witness :
    delayMs (defaultFps 25) 2 = ⌊dmul (ddiv 1000 25) ((2 : Int) : ℚ)⌋ ∧
    |dmul (ddiv 1000 25) ((2 : Int) : ℚ) - 1000 * ((2 : Int) : ℚ) / 25|
      ≤ 1000 * ((2 : Int) : ℚ) / 25 / 2 ^ 51 ∧
    1000 * ((2 : Int) : ℚ) / 25 * (1 - 1 / 2 ^ 51) - 1 < (delayMs (defaultFps 25) 2 : ℚ) ∧
    (delayMs (defaultFps 25) 2 : ℚ) ≤ 1000 * ((2 : Int) : ℚ) / 25 * (1 + 1 / 2 ^ 51) :=
  delay_truncates_double_product 25 2 (by norm_num) (by decide) (by decide)
    (by norm_num) (by norm_num)

/-! ## Stopping -/

/-- Claim C11: `stop()` called on any state of the object (worker running, paused,
finished, or not running at all) leaves the frame history empty and
`m_stopRequested` set, changes neither the frame delta, the threshold nor the
stored file path, emits no signal (so no `errorOccurred`) and leaves the worker
thread not running; a second `stop()` gives the same fields and signals as the
first. -/
theorem stop_clears_history_and_is_idempotent (vp : VideoProcessor) :
    (stop vp).1.frameBuffer = [] ∧
    (stop vp).1.frameBuffer.length = 0 ∧
    (stop vp).1.stopRequested = true ∧
    (stop vp).1.frameDelta = vp.frameDelta ∧
    (stop vp).1.motionThreshold = vp.motionThreshold ∧
    (stop vp).1.filePath = vp.filePath ∧
    (stop vp).1.threadRunning = false ∧
    (stop vp).2 = [] ∧
    stop (stop vp).1 = stop vp := by
  unfold stop
  cases h : vp.threadRunning <;> simp [h]

/-! ## Sleeps of the worker loop -/

end MotPlayer
